import Mathlib

/-!
Verification of the map-reduce summarization pipeline of `app.py`
(file summarizer: extract text, chunk it, summarize each chunk with a
language-model call, join the partial summaries, and issue one final
mode-dependent reduce call).

Texts are modelled as `List Char` (Python strings are sequences of
characters); the language-model capability is an oracle
`Request → List Char` giving the response content for each request.
The pipeline returns its user-visible output together with the ordered
trace of language-model requests it issued.
-/

namespace FileSummarize

/-- Python `range(start, stop, step)` for a positive step: the indices
`start, start+step, ...` below `stop`.  (For `step = 0` Python raises;
see `pyRangeChecked`.) -/
def pyRange (start stop step : Nat) : List Nat :=
  if _h : 0 < step ∧ start < stop then
    start :: pyRange (start + step) stop step
  else
    []
termination_by stop - start
decreasing_by omega

/-- Python `range(start, stop, step)`, with `none` modelling the
`ValueError` raised when `step = 0`. -/
def pyRangeChecked (start stop step : Nat) : Option (List Nat) :=
  if step = 0 then none else some (pyRange start stop step)

/-- Python slice `l[i:j]` for natural `i ≤ j` (clamped at the end of
the list, as in Python). -/
def pySlice (l : List Char) (i j : Nat) : List Char :=
  (l.take j).drop i

/-- `chunk_text` from `app.py`:
`[text[i:i + max_chars] for i in range(0, len(text), max_chars)]`. -/
def chunk_text (text : List Char) (max_chars : Nat) : List (List Char) :=
  (pyRange 0 text.length max_chars).map (fun i => pySlice text i (i + max_chars))

/-- `chunk_text`, with the `range` step checked as Python does: `none`
models the `ValueError` raised when `max_chars = 0`; otherwise the chunk
list is returned (slicing itself never raises). -/
def chunk_textChecked (text : List Char) (max_chars : Nat) : Option (List (List Char)) :=
  (pyRangeChecked 0 text.length max_chars).map
    (fun idxs => idxs.map (fun i => pySlice text i (i + max_chars)))

/-- Python `str.strip()`: remove leading and trailing whitespace. -/
def pyStrip (s : List Char) : List Char :=
  ((s.dropWhile Char.isWhitespace).reverse.dropWhile Char.isWhitespace).reverse

/-- One role-tagged message of a chat request. -/
structure Message where
  role : String
  content : List Char
deriving DecidableEq

/-- One request to the language-model capability:
`client.chat.completions.create(model=…, messages=…, max_tokens=…)`. -/
structure Request where
  model : String
  messages : List Message
  max_tokens : Nat
deriving DecidableEq

/-- `MODEL = "llama-3.1-8b-instant"` from `app.py`. -/
def MODEL : String := "llama-3.1-8b-instant"

/-- The request issued for one chunk in the map step of `app.py`:
system message `"Extract only key ideas. No explanations."`, the chunk
as user message, `max_tokens=120`. -/
def mapRequest (chunk : List Char) : Request :=
  ⟨MODEL,
   [⟨"system", ("Extract only key ideas. No explanations.").data⟩,
    ⟨"user", chunk⟩],
   120⟩

/-- The map step of `app.py`: the loop `for chunk in chunks[:6]`, which
issues one request per processed chunk, in chunk order, and appends the
stripped response content to `partial_summaries`.  Returns the collected
partial summaries together with the ordered trace of issued requests. -/
def mapStep (llm : Request → List Char) (chunks : List (List Char)) :
    List (List Char) × List Request :=
  (chunks.take 6).foldl
    (fun acc chunk =>
      (acc.1 ++ [pyStrip (llm (mapRequest chunk))], acc.2 ++ [mapRequest chunk]))
    ([], [])

/-- `combined_text = "\n".join(partial_summaries)` from `app.py`. -/
def combined_text (summaries : List (List Char)) : List Char :=
  List.intercalate ("\n").data summaries

/-- The final prompt of the `"Short Summary (Recommended)"` branch of `app.py`. -/
def final_prompt_short : List Char :=
  ("\nWrite a concise executive-style summary.\n\nRULES:\n- One short paragraph\n- Simple language\n- No headings\n- No definitions\n- Focus on overall meaning\n- 120–150 tokens\n").data

/-- The final prompt of the `"Topic-wise Summary"` branch of `app.py`. -/
def final_prompt_topic : List Char :=
  ("\nCreate a TOPIC-WISE summary.\n\nRULES:\n- Use clear topic headings\n- 2–3 short sentences per topic\n- Simple student-friendly language\n- No formulas or definitions\n- Do not repeat topics\n\nFORMAT:\n## Topic Name\nExplanation\n").data

/-- The final prompt of the `else` (bullet-point) branch of `app.py`. -/
def final_prompt_bullet : List Char :=
  ("\nCreate a BULLET-POINT summary.\n\nRULES:\n- 8–12 bullet points\n- Each bullet = one clear idea\n- No explanations\n- No definitions\n- Easy to scan and act on\n").data

/-- The summary-mode dispatch of `app.py` (the `if summary_type == …`
chain): chooses the final prompt and the `max_tokens` budget. -/
def dispatch (summary_type : String) : List Char × Nat :=
  if summary_type = "Short Summary (Recommended)" then
    (final_prompt_short, 170)
  else if summary_type = "Topic-wise Summary" then
    (final_prompt_topic, 600)
  else
    (final_prompt_bullet, 300)

/-- The single reduce request of `app.py`: the mode's final prompt as
system message, the combined text as user message, the mode's
`max_tokens` budget. -/
def reduceRequest (summary_type : String) (combined : List Char) : Request :=
  ⟨MODEL,
   [⟨"system", (dispatch summary_type).1⟩,
    ⟨"user", combined⟩],
   (dispatch summary_type).2⟩

/-- The user-visible outcome of one pipeline run. -/
inductive Output where
  | errorMsg (msg : String) : Output
  | summary (text : List Char) : Output
deriving DecidableEq

/-- The pipeline of `app.py` after extraction, from the extracted text
(`none` when extraction returned `None`) and the selected summary-type
label: the `if not text or not text.strip()` guard, chunking at 3000,
the map step over the first 6 chunks, the newline join, and the single
mode-dispatched reduce request whose stripped response is displayed.
Returns the outcome and the ordered trace of issued requests. -/
def pipeline (llm : Request → List Char) (summary_type : String)
    (text : Option (List Char)) : Output × List Request :=
  match text with
  | none => (Output.errorMsg ("Unsupported or empty file."), [])
  | some t =>
    if pyStrip t = [] then
      (Output.errorMsg ("Unsupported or empty file."), [])
    else
      let chunks := chunk_text t 3000
      let pm := mapStep llm chunks
      let req := reduceRequest summary_type (combined_text pm.1)
      (Output.summary (pyStrip (llm req)), pm.2 ++ [req])

/-! ### Chunker lemmas -/

theorem pyRange_of_lt {step : Nat} (h1 : 0 < step) {start stop : Nat} (h2 : start < stop) :
    pyRange start stop step = start :: pyRange (start + step) stop step := by
  rw [pyRange]
  simp [h1, h2]

theorem pyRange_of_ge {start stop : Nat} (step : Nat) (h2 : ¬ start < stop) :
    pyRange start stop step = [] := by
  rw [pyRange]
  simp [h2]

theorem pyRange_shift (M : Nat) (hM : 0 < M) (L a : Nat) :
    pyRange (a + M) L M = (pyRange a (L - M) M).map (fun x => x + M) := by
  by_cases h : a + M < L
  · have ha : a < L - M := by omega
    rw [pyRange_of_lt hM h, pyRange_of_lt hM ha, List.map_cons]
    exact congrArg (List.cons (a + M)) (pyRange_shift M hM L (a + M))
  · have ha : ¬ a < L - M := by omega
    rw [pyRange_of_ge M h, pyRange_of_ge M ha]
    rfl
termination_by L - a
decreasing_by omega

theorem pySlice_drop (t : List Char) (M i j : Nat) :
    pySlice (t.drop M) i j = pySlice t (i + M) (j + M) := by
  unfold pySlice
  rw [List.take_drop M j t, List.drop_drop, Nat.add_comm M j, Nat.add_comm M i]

theorem chunk_text_nil (M : Nat) : chunk_text [] M = [] := by
  unfold chunk_text
  rw [pyRange_of_ge M (by simp)]
  rfl

theorem chunk_text_cons (t : List Char) (M : Nat) (hM : 0 < M) (ht : t ≠ []) :
    chunk_text t M = t.take M :: chunk_text (t.drop M) M := by
  have hlen : 0 < t.length := List.length_pos.mpr ht
  unfold chunk_text
  rw [pyRange_of_lt hM hlen, pyRange_shift M hM t.length 0, List.map_cons, List.map_map,
    List.length_drop]
  refine congrArg₂ List.cons (by simp [pySlice]) ?_
  refine List.map_congr_left (fun a _ => ?_)
  simp [Function.comp, pySlice_drop]

theorem flatten_chunk_text (t : List Char) (M : Nat) (hM : 0 < M) :
    (chunk_text t M).flatten = t := by
  by_cases ht : t = []
  · subst ht
    rw [chunk_text_nil]
    rfl
  · rw [chunk_text_cons t M hM ht, List.flatten_cons,
      flatten_chunk_text (t.drop M) M hM, List.take_append_drop]
termination_by t.length
decreasing_by
  have := List.length_pos.mpr ht
  simp only [List.length_drop]
  omega

theorem length_chunk_text (t : List Char) (M : Nat) (hM : 0 < M) :
    (chunk_text t M).length = (t.length + M - 1) / M := by
  by_cases ht : t = []
  · subst ht
    rw [chunk_text_nil]
    simp only [List.length_nil]
    symm
    exact Nat.div_eq_of_lt (by omega)
  · rw [chunk_text_cons t M hM ht, List.length_cons,
      length_chunk_text (t.drop M) M hM, List.length_drop]
    have hlen : 0 < t.length := List.length_pos.mpr ht
    rcases Nat.le_total M t.length with hle | hlt
    · have e1 : t.length - M + M - 1 = t.length - 1 := by omega
      have e2 : t.length + M - 1 = (t.length - 1) + M := by omega
      rw [e1, e2, Nat.add_div_right _ hM]
    · have e1 : t.length - M = 0 := by omega
      have e2 : t.length + M - 1 = (t.length - 1) + M := by omega
      rw [e1, e2, Nat.add_div_right _ hM, Nat.div_eq_of_lt (by omega),
        Nat.div_eq_of_lt (by omega)]
termination_by t.length
decreasing_by
  have := List.length_pos.mpr ht
  simp only [List.length_drop]
  omega

theorem getElem_chunk_text (t : List Char) (M : Nat) (hM : 0 < M) (i : Nat)
    (h : i + 1 < (chunk_text t M).length) :
    ∃ c, (chunk_text t M)[i]? = some c ∧ c.length = M := by
  by_cases ht : t = []
  · rw [ht, chunk_text_nil] at h
    simp at h
  · rw [chunk_text_cons t M hM ht] at h ⊢
    match i with
    | 0 =>
      refine ⟨t.take M, by rw [List.getElem?_cons_zero], ?_⟩
      have h0 : 0 < (chunk_text (t.drop M) M).length := by simpa using h
      have hd : t.drop M ≠ [] := by
        intro he
        rw [he, chunk_text_nil] at h0
        simp at h0
      have hMt : M < t.length := by
        have hpos := List.length_pos.mpr hd
        rw [List.length_drop] at hpos
        omega
      rw [List.length_take]
      omega
    | j + 1 =>
      rw [List.getElem?_cons_succ]
      exact getElem_chunk_text (t.drop M) M hM j (by simpa using h)
termination_by t.length
decreasing_by
  have := List.length_pos.mpr ht
  simp only [List.length_drop]
  omega

/-- C1: for every text `t` and maximum chunk size `M > 0`, `chunk_text`
returns an ordered list of slices of `t` whose in-order concatenation is
exactly `t`, in which every chunk except possibly the last has length
exactly `M`, whose number of chunks is `⌈|t| / M⌉ = (|t| + M - 1) / M`,
and which is empty when `t` is empty. -/
theorem chunk_text_correct (t : List Char) (M : Nat) (hM : 0 < M) :
    (chunk_text t M).flatten = t ∧
    (chunk_text t M).length = (t.length + M - 1) / M ∧
    (∀ i, i + 1 < (chunk_text t M).length →
      ∀ c, (chunk_text t M)[i]? = some c → c.length = M) ∧
    (∀ c ∈ chunk_text t M, ∃ i, c = pySlice t i (i + M)) ∧
    (t = [] → chunk_text t M = []) := by
  refine ⟨flatten_chunk_text t M hM, length_chunk_text t M hM, ?_, ?_, ?_⟩
  · intro i hi c hc
    obtain ⟨c2, hc2, hlen⟩ := getElem_chunk_text t M hM i hi
    rw [hc2] at hc
    cases hc
    exact hlen
  · intro c hcm
    unfold chunk_text at hcm
    obtain ⟨i, _, rfl⟩ := List.mem_map.mp hcm
    exact ⟨i, rfl⟩
  · intro he
    rw [he]
    exact chunk_text_nil M

/-- Witness for C1 at `t = "abcde"`, `M = 2` (chunks `ab`, `cd`, `e`). -/
theorem chunk_text_correct_witness :
    0 < 2 ∧
    ((chunk_text ("abcde").data 2).flatten = ("abcde").data ∧
     (chunk_text ("abcde").data 2).length = (("abcde").data.length + 2 - 1) / 2 ∧
     (∀ i, i + 1 < (chunk_text ("abcde").data 2).length →
       ∀ c, (chunk_text ("abcde").data 2)[i]? = some c → c.length = 2) ∧
     (∀ c ∈ chunk_text ("abcde").data 2, ∃ i, c = pySlice ("abcde").data i (i + 2)) ∧
     (("abcde").data = [] → chunk_text ("abcde").data 2 = [])) :=
  ⟨by decide, chunk_text_correct (("abcde").data) 2 (by decide)⟩

/-! ### Map-step lemmas -/

theorem foldl_append_pair {α β γ : Type} (f : α → β) (g : α → γ) (l : List α) :
    ∀ (as : List β) (bs : List γ),
      l.foldl (fun acc x => (acc.1 ++ [f x], acc.2 ++ [g x])) (as, bs)
        = (as ++ l.map f, bs ++ l.map g) := by
  induction l with
  | nil => intro as bs; simp
  | cons x tl ih =>
    intro as bs
    simp only [List.foldl_cons, List.map_cons]
    rw [ih]
    simp

theorem mapStep_eq (llm : Request → List Char) (chunks : List (List Char)) :
    mapStep llm chunks
      = ((chunks.take 6).map (fun c => pyStrip (llm (mapRequest c))),
         (chunks.take 6).map mapRequest) := by
  unfold mapStep
  rw [foldl_append_pair]
  simp

/-! ### Strip lemmas -/

theorem dropWhile_dropWhile (p : Char → Bool) (l : List Char) :
    (l.dropWhile p).dropWhile p = l.dropWhile p := by
  induction l with
  | nil => rfl
  | cons x tl ih =>
    by_cases hx : p x = true
    · simp [List.dropWhile_cons, hx, ih]
    · simp [List.dropWhile_cons, hx]

theorem dropWhile_of_append (p : Char → Bool) (x r : List Char)
    (h : (x ++ r).dropWhile p = x ++ r) : x.dropWhile p = x := by
  cases x with
  | nil => rfl
  | cons a y =>
    rw [List.cons_append, List.dropWhile_cons] at h
    by_cases ha : p a = true
    · exfalso
      rw [if_pos ha] at h
      have hle : ((y ++ r).dropWhile p).length ≤ (y ++ r).length :=
        List.Sublist.length_le (List.IsSuffix.sublist (List.dropWhile_suffix p))
      rw [h] at hle
      simp only [List.length_cons] at hle
      omega
    · rw [List.dropWhile_cons, if_neg ha]

theorem dropWhile_pyStrip (s : List Char) :
    (pyStrip s).dropWhile Char.isWhitespace = pyStrip s := by
  have hAA : (s.dropWhile Char.isWhitespace).dropWhile Char.isWhitespace
      = s.dropWhile Char.isWhitespace := dropWhile_dropWhile Char.isWhitespace s
  have hsuf : ((s.dropWhile Char.isWhitespace).reverse.dropWhile Char.isWhitespace)
      <:+ (s.dropWhile Char.isWhitespace).reverse := List.dropWhile_suffix Char.isWhitespace
  obtain ⟨u, hu⟩ := hsuf
  have hXA : ((s.dropWhile Char.isWhitespace).reverse.dropWhile Char.isWhitespace).reverse
      ++ u.reverse = s.dropWhile Char.isWhitespace := by
    have hrev := congrArg List.reverse hu
    simpa [List.reverse_append] using hrev
  unfold pyStrip
  exact dropWhile_of_append Char.isWhitespace _ u.reverse (by rw [hXA]; exact hAA)

theorem reverse_pyStrip (s : List Char) :
    (pyStrip s).reverse = (s.dropWhile Char.isWhitespace).reverse.dropWhile Char.isWhitespace := by
  unfold pyStrip
  rw [List.reverse_reverse]

theorem pyStrip_pyStrip (s : List Char) : pyStrip (pyStrip s) = pyStrip s := by
  show (((pyStrip s).dropWhile Char.isWhitespace).reverse.dropWhile Char.isWhitespace).reverse
      = pyStrip s
  rw [dropWhile_pyStrip s, reverse_pyStrip s,
    dropWhile_dropWhile Char.isWhitespace ((s.dropWhile Char.isWhitespace).reverse),
    ← reverse_pyStrip s, List.reverse_reverse]

/-! ### Claims about the map stage and combiner -/

/-- C2: for a chunk sequence of length `K`, the map stage issues exactly
`min K 6` requests, one per chunk, in chunk order; the `n`-th request and
the `n`-th partial summary correspond to the `n`-th chunk; the trace is
the image of the first 6 chunks only, so chunks beyond the sixth are
never sent to the capability. -/
theorem mapStep_spec (llm : Request → List Char) (chunks : List (List Char)) (n : Nat)
    (hn : n < min chunks.length 6) :
    (mapStep llm chunks).2.length = min chunks.length 6 ∧
    (mapStep llm chunks).1.length = min chunks.length 6 ∧
    (mapStep llm chunks).2 = (chunks.take 6).map mapRequest ∧
    (mapStep llm chunks).2[n]? = (chunks[n]?).map mapRequest ∧
    (mapStep llm chunks).1[n]? = (chunks[n]?).map (fun c => pyStrip (llm (mapRequest c))) := by
  have hn6 : n < 6 := by omega
  refine ⟨?_, ?_, ?_, ?_, ?_⟩
  · rw [mapStep_eq]
    simp only [List.length_map, List.length_take]
    omega
  · rw [mapStep_eq]
    simp only [List.length_map, List.length_take]
    omega
  · rw [mapStep_eq]
  · rw [mapStep_eq]
    simp [List.getElem?_take, hn6]
  · rw [mapStep_eq]
    simp [List.getElem?_take, hn6]

/-- Witness for C2 at two chunks `a`, `b`, a constant capability, `n = 1`. -/
theorem mapStep_spec_witness :
    1 < min ([("a").data, ("b").data].length) 6 ∧
    ((mapStep (fun _ => ("ok").data) [("a").data, ("b").data]).2.length
        = min ([("a").data, ("b").data].length) 6 ∧
     (mapStep (fun _ => ("ok").data) [("a").data, ("b").data]).1.length
        = min ([("a").data, ("b").data].length) 6 ∧
     (mapStep (fun _ => ("ok").data) [("a").data, ("b").data]).2
        = ([("a").data, ("b").data].take 6).map mapRequest ∧
     (mapStep (fun _ => ("ok").data) [("a").data, ("b").data]).2[1]?
        = ([("a").data, ("b").data][1]?).map mapRequest ∧
     (mapStep (fun _ => ("ok").data) [("a").data, ("b").data]).1[1]?
        = ([("a").data, ("b").data][1]?).map
            (fun c => pyStrip ((fun _ => ("ok").data) (mapRequest c)))) :=
  ⟨by decide, mapStep_spec (fun _ => ("ok").data) [("a").data, ("b").data] 1 (by decide)⟩

/-- C7: every map-stage request carries the fixed system instruction
`"Extract only key ideas. No explanations."`, some chunk of the input as
its user message, and `max_tokens = 120`. -/
theorem mapRequest_params (llm : Request → List Char) (chunks : List (List Char))
    (req : Request) (hreq : req ∈ (mapStep llm chunks).2) :
    req.max_tokens = 120 ∧
    ∃ chunk ∈ chunks,
      req.messages =
        [⟨"system", ("Extract only key ideas. No explanations.").data⟩,
         ⟨"user", chunk⟩] := by
  rw [mapStep_eq] at hreq
  obtain ⟨c, hc, rfl⟩ := List.mem_map.mp hreq
  exact ⟨rfl, c, List.mem_of_mem_take hc, rfl⟩

/-- Witness for C7 at a single chunk `a`. -/
theorem mapRequest_params_witness :
    (mapRequest (("a").data) ∈ (mapStep (fun _ => []) [("a").data]).2) ∧
    ((mapRequest (("a").data)).max_tokens = 120 ∧
     ∃ chunk ∈ [("a").data],
       (mapRequest (("a").data)).messages =
         [⟨"system", ("Extract only key ideas. No explanations.").data⟩,
          ⟨"user", chunk⟩]) :=
  ⟨by decide,
   mapRequest_params (fun _ => []) [("a").data] (mapRequest (("a").data)) (by decide)⟩

/-- C10: the partial summaries are the per-chunk responses each
whitespace-stripped before being collected; the combined text is the
newline-join of these stripped responses, and no collected partial
summary has leading or trailing whitespace (stripping is idempotent). -/
theorem partialSummaries_stripped (llm : Request → List Char) (chunks : List (List Char)) :
    (mapStep llm chunks).1 = (chunks.take 6).map (fun c => pyStrip (llm (mapRequest c))) ∧
    combined_text (mapStep llm chunks).1
      = combined_text ((chunks.take 6).map (fun c => pyStrip (llm (mapRequest c)))) ∧
    ∀ p_sum ∈ (mapStep llm chunks).1, pyStrip p_sum = p_sum := by
  refine ⟨by rw [mapStep_eq], by rw [mapStep_eq], ?_⟩
  intro p hp
  rw [mapStep_eq] at hp
  obtain ⟨c, _, rfl⟩ := List.mem_map.mp hp
  exact pyStrip_pyStrip _

/-- Witness for C10 at one chunk and a capability answering with padded
whitespace. -/
theorem partialSummaries_stripped_witness :
    (mapStep (fun _ => (" x ").data) [("a").data]).1
        = ([("a").data].take 6).map (fun c => pyStrip ((fun _ => (" x ").data) (mapRequest c))) ∧
    combined_text (mapStep (fun _ => (" x ").data) [("a").data]).1
        = combined_text (([("a").data].take 6).map
            (fun c => pyStrip ((fun _ => (" x ").data) (mapRequest c)))) ∧
    ∀ p_sum ∈ (mapStep (fun _ => (" x ").data) [("a").data]).1, pyStrip p_sum = p_sum :=
  partialSummaries_stripped (fun _ => (" x ").data) [("a").data]

/-! ### Combiner claims -/

theorem combined_text_singleton (x : List Char) : combined_text [x] = x := by
  simp [combined_text, List.intercalate, List.intersperse]

theorem combined_text_cons_cons (x y : List Char) (tl : List (List Char)) :
    combined_text (x :: y :: tl) = x ++ '\n' :: combined_text (y :: tl) := by
  have hn : ("\n").data = ['\n'] := rfl
  simp [combined_text, List.intercalate, List.intersperse, hn]

/-- C5: the combiner is the pure newline-join of the partial summaries in
order: the empty sequence joins to the empty text, `[a, b, c]` joins to
`a ++ "\n" ++ b ++ "\n" ++ c`, and in general a join peels off one
element and one newline at a time. -/
theorem combined_text_spec (a b c : List Char) :
    combined_text [] = [] ∧
    combined_text [a, b, c] = a ++ '\n' :: (b ++ '\n' :: c) ∧
    ∀ x y tl, combined_text (x :: y :: tl) = x ++ '\n' :: combined_text (y :: tl) := by
  refine ⟨rfl, ?_, fun x y tl => combined_text_cons_cons x y tl⟩
  rw [combined_text_cons_cons, combined_text_cons_cons, combined_text_singleton]

/-! ### Mode-dispatch claims -/

/-- C3: the three literal mode labels select exactly their fixed final
prompt and `max_tokens` budget: short-paragraph prompt with budget 170,
topic-heading prompt with budget 600, bullet-list prompt with budget 300. -/
theorem dispatch_modes :
    dispatch ("Short Summary (Recommended)") = (final_prompt_short, 170) ∧
    dispatch ("Topic-wise Summary") = (final_prompt_topic, 600) ∧
    dispatch ("Bullet-point Summary") = (final_prompt_bullet, 300) := by
  refine ⟨?_, ?_, ?_⟩ <;> rfl

/-- C9: the dispatch is total over all label strings with the bullet-point
branch as default: every label other than the two first literals selects
the bullet-point prompt and budget 300. -/
theorem dispatch_default (label : String)
    (h1 : label ≠ "Short Summary (Recommended)")
    (h2 : label ≠ "Topic-wise Summary") :
    dispatch label = (final_prompt_bullet, 300) := by
  unfold dispatch
  rw [if_neg h1, if_neg h2]

/-- Witness for C9 at the label `"zip"`, which is none of the three literals. -/
theorem dispatch_default_witness :
    ("zip" ≠ ("Short Summary (Recommended)" : String)) ∧
    ("zip" ≠ ("Topic-wise Summary" : String)) ∧
    dispatch ("zip") = (final_prompt_bullet, 300) :=
  ⟨by decide, by decide, dispatch_default ("zip") (by decide) (by decide)⟩

/-! ### Pipeline claims -/

/-- C4: when extraction returned absent text, or text that strips to
nothing (empty or whitespace-only), the pipeline shows the error
`"Unsupported or empty file."` and issues zero capability requests. -/
theorem empty_extraction_guard (llm : Request → List Char) (label : String)
    (text : Option (List Char))
    (h : text = none ∨ ∃ t, text = some t ∧ pyStrip t = []) :
    pipeline llm label text = (Output.errorMsg ("Unsupported or empty file."), []) := by
  rcases h with rfl | ⟨t, rfl, ht⟩
  · rfl
  · show (if pyStrip t = [] then (Output.errorMsg ("Unsupported or empty file."), ([] : List Request))
        else _) = _
    rw [if_pos ht]

/-- Witness for C4 at the whitespace-only extracted text `"  "`. -/
theorem empty_extraction_guard_witness :
    (some (("  ").data) = none ∨ ∃ t, some (("  ").data) = some t ∧ pyStrip t = []) ∧
    pipeline (fun _ => []) ("Short Summary (Recommended)") (some (("  ").data))
      = (Output.errorMsg ("Unsupported or empty file."), []) :=
  ⟨Or.inr ⟨("  ").data, rfl, by decide⟩,
   empty_extraction_guard (fun _ => []) ("Short Summary (Recommended)")
     (some (("  ").data)) (Or.inr ⟨("  ").data, rfl, by decide⟩)⟩

/-- C6: on non-blank text the pipeline issues exactly one reduce request
after the map-stage requests; its system message is the selected mode's
fixed prompt, its budget the mode's fixed `max_tokens`, its user message
the combined text; and the displayed final summary is that single
response, whitespace-stripped. -/
theorem reduce_spec (llm : Request → List Char) (label : String) (t : List Char)
    (h : pyStrip t ≠ []) :
    pipeline llm label (some t)
      = (Output.summary (pyStrip (llm (reduceRequest label
            (combined_text (mapStep llm (chunk_text t 3000)).1)))),
         (mapStep llm (chunk_text t 3000)).2
           ++ [reduceRequest label (combined_text (mapStep llm (chunk_text t 3000)).1)]) ∧
    (reduceRequest label (combined_text (mapStep llm (chunk_text t 3000)).1)).messages
      = [⟨"system", (dispatch label).1⟩,
         ⟨"user", combined_text (mapStep llm (chunk_text t 3000)).1⟩] ∧
    (reduceRequest label (combined_text (mapStep llm (chunk_text t 3000)).1)).max_tokens
      = (dispatch label).2 := by
  refine ⟨?_, rfl, rfl⟩
  show (if pyStrip t = [] then (Output.errorMsg ("Unsupported or empty file."), ([] : List Request))
      else _) = _
  rw [if_neg h]

/-- Witness for C6 at the text `"hi"`, the topic-wise label, and a
constant capability. -/
theorem reduce_spec_witness :
    pyStrip (("hi").data) ≠ [] ∧
    (pipeline (fun _ => (" s ").data) ("Topic-wise Summary") (some (("hi").data))
      = (Output.summary (pyStrip ((fun _ => (" s ").data) (reduceRequest ("Topic-wise Summary")
            (combined_text (mapStep (fun _ => (" s ").data) (chunk_text (("hi").data) 3000)).1)))),
         (mapStep (fun _ => (" s ").data) (chunk_text (("hi").data) 3000)).2
           ++ [reduceRequest ("Topic-wise Summary")
                (combined_text (mapStep (fun _ => (" s ").data)
                  (chunk_text (("hi").data) 3000)).1)]) ∧
     (reduceRequest ("Topic-wise Summary")
        (combined_text (mapStep (fun _ => (" s ").data)
          (chunk_text (("hi").data) 3000)).1)).messages
      = [⟨"system", (dispatch ("Topic-wise Summary")).1⟩,
         ⟨"user", combined_text (mapStep (fun _ => (" s ").data)
           (chunk_text (("hi").data) 3000)).1⟩] ∧
     (reduceRequest ("Topic-wise Summary")
        (combined_text (mapStep (fun _ => (" s ").data)
          (chunk_text (("hi").data) 3000)).1)).max_tokens
      = (dispatch ("Topic-wise Summary")).2) :=
  ⟨by decide,
   reduce_spec (fun _ => (" s ").data) ("Topic-wise Summary") (("hi").data) (by decide)⟩

/-- C8: at its default maximum chunk size 3000 the chunker is total over
all texts: the checked version (which models Python raising only for a
zero step) always returns the chunk list, never an error. -/
theorem chunk_text_total (text : List Char) :
    chunk_textChecked text 3000 = some (chunk_text text 3000) := by
  unfold chunk_textChecked chunk_text pyRangeChecked
  rw [if_neg (by omega : (3000 : Nat) ≠ 0)]
  rfl

end FileSummarize
